import Mathlib

/-!
Verification development for the ts-comment-extractor repository
(src/extractSignaturesv2.ts).

The program is embedded shallowly: strings are lists of characters
(`Str`), the JavaScript string operations used by the source
(`String.prototype.trim`, the two regex replacements, `split('\n')`,
`startsWith`, `substring`) are translated into executable Lean functions,
and the two core components — `AnnotationParser.parse` (a line-oriented
state machine over a comment body) and `TypeScriptParser`
(tree walk, leading comments, positions) — are translated function by
function.  JavaScript truthiness tests on strings (`if (annotationType)`,
`if (currentAnnotation?.type && currentAnnotation.content)`) are modelled
as explicit non-emptiness tests, exactly where the source performs them.
-/

namespace Extractor

/-- Strings are modelled as lists of characters. -/
abbrev Str := List Char

/-- Coerce a Lean string literal into the `Str` model. -/
def str (s : String) : Str := s.data

/-- The ECMAScript whitespace class `\s` (also the set trimmed by
`String.prototype.trim`): tab, line feed, vertical tab, form feed,
carriage return, space, NBSP, the Unicode space separators, line and
paragraph separators, and the BOM. -/
def isJsWs (c : Char) : Bool :=
  c = '\t' || c = '\n' || c = '\u000b' || c = '\u000c' || c = '\r' || c = ' ' ||
  c = '\u00a0' || c = '\u1680' || (0x2000 ≤ c.toNat && c.toNat ≤ 0x200a) ||
  c = '\u2028' || c = '\u2029' || c = '\u202f' || c = '\u205f' ||
  c = '\u3000' || c = '\ufeff'

/-- Remove the leading whitespace run (front half of `trim`). -/
def trimStart (s : Str) : Str := s.dropWhile isJsWs

/-- Remove the trailing whitespace run (back half of `trim`). -/
def trimEnd : Str → Str
  | [] => []
  | c :: t =>
    if (trimEnd t).isEmpty then (if isJsWs c then [] else [c]) else c :: trimEnd t

/-- JavaScript `String.prototype.trim`: remove whitespace at both ends. -/
def jsTrim (s : Str) : Str := trimStart (trimEnd s)

/-- A character matched by the class `[/*\s]` of the first regex in
`AnnotationParser.parse` (line 198 of the source). -/
def isMarker (c : Char) : Bool := c = '/' || c = '*' || isJsWs c

/-- The replacement `.replace(/^[\/*\s]+/, '')`: drop the leading run of
slashes, asterisks and whitespace. -/
def stripLeadingMarkers (s : Str) : Str := s.dropWhile isMarker

/-- The replacement `.replace(/\s*\*\/$/, '')`: when the string ends with
the block-comment closer, drop the closer together with the whitespace
run directly before it; otherwise leave the string unchanged. -/
def stripTrailingCloser (s : Str) : Str :=
  if (['/', '*']).isPrefixOf s.reverse then trimEnd (s.take (s.length - 2)) else s

/-- The whole per-line cleaning pipeline of `AnnotationParser.parse`
(lines 197-199 of the source): `line.trim()` then the two replacements. -/
def cleanLine (line : Str) : Str :=
  stripTrailingCloser (stripLeadingMarkers (jsTrim line))

/-- JavaScript `String.prototype.split('\n')`: the empty string yields one
empty field, and every newline character separates two fields. -/
def splitLines : Str → List Str
  | [] => [[]]
  | c :: rest =>
    if c = '\n' then [] :: splitLines rest
    else
      match splitLines rest with
      | [] => [[c]]
      | l :: ls => (c :: l) :: ls

/-- `AnnotationConfig` (the two fields the core logic reads; the optional
file-encoding field is only used by the out-of-scope file reader). -/
structure AnnotationConfig where
  supportedAnnotations : List Str
  multiLineSupport : Bool
deriving DecidableEq

/-- `AnnotationMetadata`: one record per recognized tag occurrence. -/
structure AnnotationMetadata where
  type : Str
  content : Str
  isMultiLine : Bool
deriving DecidableEq

/-- `AnnotationParser.findAnnotationType`: the first configured tag, in
the order of the configured list, that is a prefix of the cleaned line
(`Array.prototype.find` returns the first hit). -/
def findAnnotationType (cfg : AnnotationConfig) (line : Str) : Option Str :=
  cfg.supportedAnnotations.find? (fun a => a.isPrefixOf line)

/-- `AnnotationParser.finalizeAnnotation`: trim the accumulated content;
`isMultiLine || false` is the identity on our always-set booleans. -/
def finalizeAnnotation (c : AnnotationMetadata) : AnnotationMetadata :=
  AnnotationMetadata.mk c.type (jsTrim c.content) c.isMultiLine

/-- The push guarded by `if (currentAnnotation?.type &&
currentAnnotation.content)` (lines 206-208 and 224-226 of the source):
the pending record is finalized and appended only when both its tag and
its raw content are truthy, i.e. non-empty, strings. -/
def pushCurrent (anns : List AnnotationMetadata) (cur : Option AnnotationMetadata) :
    List AnnotationMetadata :=
  match cur with
  | some c =>
    if !c.type.isEmpty && !c.content.isEmpty then anns ++ [ finalizeAnnotation c]
    else anns
  | none => anns

/-- The `else if (currentAnnotation && this.config.multiLineSupport)`
branch (lines 216-220): append a newline and the cleaned line to the open
record and mark it multi-line; otherwise the state is unchanged. -/
def contStep (cfg : AnnotationConfig)
    (st : List AnnotationMetadata × Option AnnotationMetadata) (trimmedLine : Str) :
    List AnnotationMetadata × Option AnnotationMetadata :=
  match st.2 with
  | some c =>
    if cfg.multiLineSupport then
      (st.1, some (AnnotationMetadata.mk c.type (c.content ++ '\n' :: trimmedLine) true))
    else st
  | none => st

/-- One iteration of the `for (const line of lines)` loop of
`AnnotationParser.parse`.  The `if (annotationType)` test is JavaScript
truthiness: a found empty-string tag behaves like no tag at all. -/
def parseStep (cfg : AnnotationConfig)
    (st : List AnnotationMetadata × Option AnnotationMetadata) (line : Str) :
    List AnnotationMetadata × Option AnnotationMetadata :=
  let trimmedLine := cleanLine line
  match findAnnotationType cfg trimmedLine with
  | some t =>
    if t.isEmpty then contStep cfg st trimmedLine
    else
      (pushCurrent st.1 st.2,
       some (AnnotationMetadata.mk t (jsTrim (trimmedLine.drop t.length)) false))
  | none => contStep cfg st trimmedLine

/-- The loop of `AnnotationParser.parse` over an explicit list of lines,
starting from an empty output and no open record. -/
def parseLines (cfg : AnnotationConfig) (lines : List Str) :
    List AnnotationMetadata × Option AnnotationMetadata :=
  lines.foldl (parseStep cfg) ([], none)

/-- `AnnotationParser.parse` (lines 191-229 of the source): split the
comment into physical lines, run the state machine, then flush the
still-open record under the same truthiness guard. -/
def parse (cfg : AnnotationConfig) (comments : Str) : List AnnotationMetadata :=
  let st := parseLines cfg (splitLines comments)
  pushCurrent st.1 st.2

/-- The default configuration of `TypeScriptParser` (line 43-47 of the
source; the encoding field is out-of-scope I/O glue). -/
def defaultConfig : AnnotationConfig :=
  AnnotationConfig.mk [str "@param", str "@returns", str "@throws"] true

/-- A source file is its full text.  (`ts.SourceFile` also carries the
syntax tree; we keep the tree separate, see `TsNode`.) -/
structure SourceFile where
  text : Str
deriving DecidableEq

/-- The data the source reads off one syntax-tree node, as produced by the
external TypeScript grammar library: whether the node is a function
declaration, the name token's text (absent on unnamed declarations), the
offset of the name token's start, the offset returned by `node.getStart()`
(the node's first non-trivia token), and the result of
`ts.getLeadingCommentRanges(fullText, node.getFullStart())` — `none` when
no comment trivia immediately precedes the node, otherwise the list of
comment ranges as (pos, end) offset pairs. -/
structure NodeData where
  isFunctionDeclaration : Bool
  name : Option Str
  nameStart : Nat
  start : Nat
  leadingCommentRanges : Option (List (Nat × Nat))
deriving DecidableEq

/-- A syntax tree: a node with its child list, in source order. -/
inductive TsNode where
  | node (data : NodeData) (children : List TsNode)

/-- The data of a tree's root node. -/
def TsNode.data : TsNode → NodeData
  | .node d _ => d

/-- The qualification test of `extractFunctions`:
`ts.isFunctionDeclaration(node) && node.name`. -/
def TsNode.qualifies : TsNode → Bool
  | .node d _ => d.isFunctionDeclaration && d.name.isSome

/-- The number of line breaks strictly before offset `pos` of the text:
the 0-based line of `ts.getLineAndCharacterOfPosition`. -/
def lineOf (text : Str) (pos : Nat) : Nat :=
  ((text.take pos).filter (fun c => c == '\n')).length

/-- The distance from the last line break before offset `pos` to `pos`:
the 0-based character of `ts.getLineAndCharacterOfPosition`. -/
def characterOf (text : Str) (pos : Nat) : Nat :=
  ((text.take pos).reverse.takeWhile (fun c => c != '\n')).length

/-- `sourceFile.getLineAndCharacterOfPosition`, modelled from the
TypeScript API it wraps: 0-based (line, character) of an offset. -/
def getLineAndCharacterOfPosition (text : Str) (pos : Nat) : Nat × Nat :=
  (lineOf text pos, characterOf text pos)

/-- `TypeScriptParser.getLeadingComments` (lines 152-159): when the
grammar library reports no comment ranges the result is the empty string,
otherwise the ranges' substrings joined by a line break. -/
def getLeadingComments (text : Str) (ranges : Option (List (Nat × Nat))) : Str :=
  match ranges with
  | none => []
  | some rs => List.intercalate ['\n'] (rs.map (fun r => (text.take r.2).drop r.1))

/-- `TypeScriptParser.parseAnnotations` (lines 165-170): an empty comment
string short-circuits to an empty list, otherwise the comment is handed
to the annotation parser. -/
def parseAnnotations (cfg : AnnotationConfig) (comments : Str) : List AnnotationMetadata :=
  if comments.isEmpty then [] else parse cfg comments

/-- A function's reported position. -/
structure Location where
  line : Nat
  column : Nat
deriving DecidableEq

/-- `FunctionMetadata`: one entry per located function declaration. -/
structure FunctionMetadata where
  name : Str
  annotations : List AnnotationMetadata
  location : Location
deriving DecidableEq

/-- `TypeScriptParser.processFunctionDeclaration` (lines 128-146): `null`
for a nameless node; otherwise the name text, the parsed leading-comment
annotations, and the 1-based line/column of `node.getStart()`. -/
def processFunctionDeclaration (cfg : AnnotationConfig) (sf : SourceFile)
    (d : NodeData) : Option FunctionMetadata :=
  match d.name with
  | none => none
  | some nm =>
    let lc := getLineAndCharacterOfPosition sf.text d.start
    some (FunctionMetadata.mk nm
      (parseAnnotations cfg (getLeadingComments sf.text d.leadingCommentRanges))
      (Location.mk (lc.1 + 1) (lc.2 + 1)))

/-- The recursive `visit` closure of `TypeScriptParser.extractFunctions`
(lines 106-122): a qualifying node contributes its metadata (when
non-null), then every child is visited in order. -/
def visit (cfg : AnnotationConfig) (sf : SourceFile) : TsNode → List FunctionMetadata
  | .node d children =>
    (if d.isFunctionDeclaration && d.name.isSome then
      match processFunctionDeclaration cfg sf d with
      | some fm => [fm]
      | none => []
    else []) ++ (children.attach.map (fun c => visit cfg sf c.val)).flatten
decreasing_by
  have h := List.sizeOf_lt_of_mem c.2
  simp only [TsNode.node.sizeOf_spec]
  omega

/-- `TypeScriptParser.extractFunctions`: visit the root of the tree. -/
def extractFunctions (cfg : AnnotationConfig) (sf : SourceFile) (root : TsNode) :
    List FunctionMetadata :=
  visit cfg sf root

/-- Modelled from the spec: document order of the nodes of a tree — the
depth-first listing that visits each parent before its children and
siblings left to right (spec sections 4.1 and 8, order preservation). -/
def preorder : TsNode → List TsNode
  | .node d children =>
    .node d children :: (children.attach.map (fun c => preorder c.val)).flatten
decreasing_by
  have h := List.sizeOf_lt_of_mem c.2
  simp only [TsNode.node.sizeOf_spec]
  omega

/-- Modelled from the spec: the 1-based location of the start of a
declaration's name token (spec section 4.1, item 4). -/
def nameTokenLocation (text : Str) (nameStart : Nat) : Location :=
  Location.mk (lineOf text nameStart + 1) (characterOf text nameStart + 1)

/-! Helper lemmas about the string primitives. -/

theorem dropWhile_idem (p : Char → Bool) (l : Str) :
    (l.dropWhile p).dropWhile p = l.dropWhile p := by
  induction l with
  | nil => rfl
  | cons a t ih =>
    cases hpa : p a with
    | true => simp [List.dropWhile_cons, hpa, ih]
    | false => simp [List.dropWhile_cons, hpa]

theorem trimEnd_idem (s : Str) : trimEnd (trimEnd s) = trimEnd s := by
  induction s with
  | nil => rfl
  | cons c t ih =>
    cases h : (trimEnd t).isEmpty with
    | true =>
      cases hc : isJsWs c with
      | true => simp [trimEnd, h, hc]
      | false => simp [trimEnd, h, hc]
    | false => simp [trimEnd, h, ih]

theorem trimEnd_concat_ws (a : Char) (ha : isJsWs a = true) (x : Str) :
    trimEnd (x ++ [a]) = trimEnd x := by
  induction x with
  | nil => simp [trimEnd, ha]
  | cons c t ih => simp [trimEnd, ih]

theorem trimEnd_concat_nonws (a : Char) (ha : isJsWs a = false) (x : Str) :
    trimEnd (x ++ [a]) = x ++ [a] := by
  induction x with
  | nil => simp [trimEnd, ha]
  | cons c t ih => simp [trimEnd, ih]

theorem trimStart_trimEnd_comm (s : Str) :
    trimEnd (trimStart s) = trimStart (trimEnd s) := by
  induction s with
  | nil => rfl
  | cons c t ih =>
    cases hc : isJsWs c with
    | true =>
      cases h : (trimEnd t).isEmpty with
      | true =>
        have ht : trimEnd t = [] := by simpa using h
        simp only [trimStart, trimEnd, List.dropWhile_cons, hc, h, if_true, ite_true]
        simpa [trimStart, ht] using ih
      | false =>
        simp only [trimStart, trimEnd, List.dropWhile_cons, hc, h, if_true, ite_true]
        simpa [trimStart, List.dropWhile_cons, hc] using ih
    | false =>
      cases h : (trimEnd t).isEmpty with
      | true => simp [trimStart, trimEnd, List.dropWhile_cons, hc, h]
      | false => simp [trimStart, trimEnd, List.dropWhile_cons, hc, h]

theorem jsTrim_idem (s : Str) : jsTrim (jsTrim s) = jsTrim s := by
  unfold jsTrim
  rw [trimStart_trimEnd_comm (trimEnd s), trimEnd_idem s]
  exact dropWhile_idem isJsWs (trimEnd s)

theorem jsTrim_concat_ws (a : Char) (ha : isJsWs a = true) (x : Str) :
    jsTrim (x ++ [a]) = jsTrim x := by
  unfold jsTrim
  rw [trimEnd_concat_ws a ha]

theorem isPrefixOf_nil_eq (t : Str) (h : t.isPrefixOf ([] : Str) = true) : t = [] := by
  cases t with
  | nil => rfl
  | cons a as => simp [List.isPrefixOf] at h

/-! Helper lemmas about the state machine. -/

theorem cleanLine_nil : cleanLine [] = [] := rfl

theorem parseStep_cleanNil (cfg : AnnotationConfig)
    (st : List AnnotationMetadata × Option AnnotationMetadata) (line : Str)
    (h : cleanLine line = []) : parseStep cfg st line = contStep cfg st [] := by
  unfold parseStep
  rw [h]
  cases hf : findAnnotationType cfg [] with
  | none => simp only [hf]
  | some t =>
    have hf2 := hf
    unfold findAnnotationType at hf2
    have hp := List.find?_some hf2
    simp only [] at hp
    have ht : t = [] := isPrefixOf_nil_eq t hp
    subst ht
    simp [hf]

theorem contStep_of_not_multi (cfg : AnnotationConfig)
    (st : List AnnotationMetadata × Option AnnotationMetadata) (tl : Str)
    (hml : cfg.multiLineSupport = false) : contStep cfg st tl = st := by
  unfold contStep
  cases st.2 with
  | none => rfl
  | some c => simp [hml]

theorem mem_pushCurrent {a : AnnotationMetadata} {anns : List AnnotationMetadata}
    {cur : Option AnnotationMetadata} (h : a ∈ pushCurrent anns cur) :
    a ∈ anns ∨ ∃ c, cur = some c ∧ c.type ≠ [] ∧ c.content ≠ [] ∧
      a = finalizeAnnotation c := by
  cases cur with
  | none => exact Or.inl h
  | some c =>
    unfold pushCurrent at h
    cases ht : c.type.isEmpty with
    | true => simp [ht] at h; exact Or.inl h
    | false =>
      cases hc : c.content.isEmpty with
      | true => simp [ht, hc] at h; exact Or.inl h
      | false =>
        simp only [ht, hc, Bool.not_false, Bool.and_self, if_true, ite_true] at h
        rcases List.mem_append.mp h with h1 | h1
        · exact Or.inl h1
        · refine Or.inr ⟨c, rfl, ?_, ?_, ?_⟩
          · exact (List.isEmpty_eq_false).mp ht
          · exact (List.isEmpty_eq_false).mp hc
          · simpa using h1

theorem pushCurrent_of_ok {anns : List AnnotationMetadata} {c : AnnotationMetadata}
    (ht : c.type ≠ []) (hc : c.content ≠ []) :
    pushCurrent anns (some c) = anns ++ [ finalizeAnnotation c] := by
  unfold pushCurrent
  simp [List.isEmpty_eq_false.mpr ht, List.isEmpty_eq_false.mpr hc]

/-! Helper lemmas about line splitting. -/

theorem splitLines_ne_nil (s : Str) : splitLines s ≠ [] := by
  cases s with
  | nil => simp [splitLines]
  | cons c rest =>
    unfold splitLines
    by_cases hc : c = '\n'
    · simp [hc]
    · simp only [hc, ite_false, if_false]
      cases splitLines rest <;> simp

theorem splitLines_no_newline (w : Str) (h : '\n' ∉ w) : splitLines w = [w] := by
  induction w with
  | nil => rfl
  | cons c rest ih =>
    have hc : ¬ c = '\n' := fun hh => h (hh ▸ List.mem_cons_self c rest)
    have hr : '\n' ∉ rest := fun hh => h (List.mem_cons_of_mem c hh)
    unfold splitLines
    simp [hc, ih hr]

theorem splitLines_snoc (w : Str) (hw : '\n' ∉ w) (s : Str) :
    splitLines (s ++ '\n' :: w) = splitLines s ++ [w] := by
  induction s with
  | nil => simp [splitLines, splitLines_no_newline w hw]
  | cons c s ih =>
    by_cases hc : c = '\n'
    · subst hc
      simp only [List.cons_append]
      unfold splitLines
      simp [ih]
    · have h1 := splitLines_ne_nil s
      cases hs : splitLines s with
      | nil => exact absurd hs h1
      | cons l ls =>
        have ih2 : splitLines (s ++ '\n' :: w) = l :: (ls ++ [w]) := by
          rw [ih, hs]; simp
        simp only [List.cons_append]
        unfold splitLines
        simp [hc, ih2, hs]

/-! Invariant machinery for the state machine. -/

/-- The record invariant behind claim C1: emitted records have trimmed
content, and a record that never received a continuation line has
non-empty content. -/
def TrimmedInv (st : List AnnotationMetadata × Option AnnotationMetadata) : Prop :=
  (∀ a ∈ st.1, jsTrim a.content = a.content ∧ (a.isMultiLine = false → a.content ≠ [])) ∧
  (∀ c, st.2 = some c → c.isMultiLine = false → jsTrim c.content = c.content)

theorem contStep_trimmedInv (cfg : AnnotationConfig)
    (st : List AnnotationMetadata × Option AnnotationMetadata) (tl : Str)
    (h : TrimmedInv st) : TrimmedInv (contStep cfg st tl) := by
  obtain ⟨anns, cur⟩ := st
  cases cur with
  | none => exact h
  | some c =>
    unfold contStep
    cases hml : cfg.multiLineSupport with
    | false => simpa [hml] using h
    | true =>
      simp only [hml, if_true, ite_true]
      refine ⟨h.1, ?_⟩
      intro c2 hc2 hmlc
      simp at hc2
      rw [← hc2] at hmlc
      simp at hmlc

theorem pushCurrent_trimmedInv {anns : List AnnotationMetadata}
    {cur : Option AnnotationMetadata}
    (h1 : ∀ a ∈ anns, jsTrim a.content = a.content ∧ (a.isMultiLine = false → a.content ≠ []))
    (h2 : ∀ c, cur = some c → c.isMultiLine = false → jsTrim c.content = c.content) :
    ∀ a ∈ pushCurrent anns cur,
      jsTrim a.content = a.content ∧ (a.isMultiLine = false → a.content ≠ []) := by
  intro a ha
  rcases mem_pushCurrent ha with hmem | ⟨c, hc, hct, hcc, rfl⟩
  · exact h1 a hmem
  · constructor
    · simp [ finalizeAnnotation, jsTrim_idem]
    · intro hml
      simp only [ finalizeAnnotation] at hml ⊢
      rw [h2 c hc hml]
      exact hcc

theorem parseStep_trimmedInv (cfg : AnnotationConfig)
    (st : List AnnotationMetadata × Option AnnotationMetadata) (line : Str)
    (h : TrimmedInv st) : TrimmedInv (parseStep cfg st line) := by
  unfold parseStep
  cases hf : findAnnotationType cfg (cleanLine line) with
  | none =>
    simp only [hf]
    exact contStep_trimmedInv cfg st (cleanLine line) h
  | some t =>
    cases hte : t.isEmpty with
    | true => simp only [hf, hte, if_true, ite_true]
              exact contStep_trimmedInv cfg st (cleanLine line) h
    | false =>
      simp only [hf, hte, Bool.false_eq_true, if_false, ite_false]
      refine ⟨pushCurrent_trimmedInv h.1 h.2, ?_⟩
      intro c2 hc2 _
      simp at hc2
      rw [← hc2]
      exact jsTrim_idem _

theorem parseLines_trimmedInv (cfg : AnnotationConfig) (lines : List Str) :
    TrimmedInv (parseLines cfg lines) := by
  unfold parseLines
  have step : ∀ (L : List Str) (st : List AnnotationMetadata × Option AnnotationMetadata),
      TrimmedInv st → TrimmedInv (L.foldl (parseStep cfg) st) := by
    intro L
    induction L with
    | nil => intro st h; exact h
    | cons a L ih =>
      intro st h
      rw [List.foldl_cons]
      exact ih _ (parseStep_trimmedInv cfg st a h)
  refine step _ _ ⟨?_, ?_⟩
  · intro a ha; simp at ha
  · intro c hc; simp at hc

/-- The record invariant behind claim C9: with multi-line support off,
every record is still in its initial shape — not multi-line, and its
content is exactly the trimmed remainder of some tag line of the input
after the tag matched for that line. -/
def TagSourced (cfg : AnnotationConfig) (S : List Str) (a : AnnotationMetadata) : Prop :=
  a.isMultiLine = false ∧ ∃ l ∈ S, findAnnotationType cfg (cleanLine l) = some a.type ∧
    a.content = jsTrim ((cleanLine l).drop a.type.length)

theorem finalizeAnnotation_tagSourced {cfg : AnnotationConfig} {S : List Str}
    {c : AnnotationMetadata} (h : TagSourced cfg S c) :
    TagSourced cfg S ( finalizeAnnotation c) := by
  obtain ⟨hml, l, hl, hf, hc⟩ := h
  refine ⟨by simpa [ finalizeAnnotation] using hml, l, hl,
    by simpa [ finalizeAnnotation] using hf, ?_⟩
  simp only [ finalizeAnnotation]
  rw [hc, jsTrim_idem]

theorem parseStep_tagSourced (cfg : AnnotationConfig) (S : List Str)
    (hml : cfg.multiLineSupport = false)
    (st : List AnnotationMetadata × Option AnnotationMetadata) (line : Str)
    (hline : line ∈ S)
    (h1 : ∀ a ∈ st.1, TagSourced cfg S a)
    (h2 : ∀ c, st.2 = some c → TagSourced cfg S c) :
    (∀ a ∈ (parseStep cfg st line).1, TagSourced cfg S a) ∧
    (∀ c, (parseStep cfg st line).2 = some c → TagSourced cfg S c) := by
  unfold parseStep
  cases hf : findAnnotationType cfg (cleanLine line) with
  | none =>
    simp only [hf]
    rw [contStep_of_not_multi cfg st _ hml]
    exact ⟨h1, h2⟩
  | some t =>
    cases hte : t.isEmpty with
    | true =>
      simp only [hf, hte, if_true, ite_true]
      rw [contStep_of_not_multi cfg st _ hml]
      exact ⟨h1, h2⟩
    | false =>
      simp only [hf, hte, Bool.false_eq_true, if_false, ite_false]
      constructor
      · intro a ha
        rcases mem_pushCurrent ha with hmem | ⟨c, hc, _, _, rfl⟩
        · exact h1 a hmem
        · exact finalizeAnnotation_tagSourced (h2 c hc)
      · intro c2 hc2
        simp at hc2
        rw [← hc2]
        exact ⟨rfl, line, hline, hf, rfl⟩

theorem parseLines_tagSourced (cfg : AnnotationConfig)
    (hml : cfg.multiLineSupport = false) (lines S : List Str)
    (hsub : ∀ l ∈ lines, l ∈ S) :
    (∀ a ∈ (parseLines cfg lines).1, TagSourced cfg S a) ∧
    (∀ c, (parseLines cfg lines).2 = some c → TagSourced cfg S c) := by
  unfold parseLines
  have step : ∀ (L : List Str), (∀ l ∈ L, l ∈ S) →
      ∀ st : List AnnotationMetadata × Option AnnotationMetadata,
      ((∀ a ∈ st.1, TagSourced cfg S a) ∧ (∀ c, st.2 = some c → TagSourced cfg S c)) →
      ((∀ a ∈ (L.foldl (parseStep cfg) st).1, TagSourced cfg S a) ∧
       (∀ c, (L.foldl (parseStep cfg) st).2 = some c → TagSourced cfg S c)) := by
    intro L
    induction L with
    | nil => intro _ st h; exact h
    | cons x L ih =>
      intro hsub2 st h
      rw [List.foldl_cons]
      exact ih (fun l hl => hsub2 l (List.mem_cons_of_mem x hl)) _
        (parseStep_tagSourced cfg S hml st x (hsub2 x (List.mem_cons_self x L)) h.1 h.2)
  refine step lines hsub ([], none) ⟨?_, ?_⟩
  · intro a ha; simp at ha
  · intro c hc; simp at hc

/-! Helper lemmas for the tree traversal. -/

theorem visit_node (cfg : AnnotationConfig) (sf : SourceFile) (d : NodeData)
    (children : List TsNode) :
    visit cfg sf (TsNode.node d children) =
      (if d.isFunctionDeclaration && d.name.isSome then
        match processFunctionDeclaration cfg sf d with
        | some fm => [fm]
        | none => []
      else []) ++ (children.map (fun c => visit cfg sf c)).flatten := by
  rw [visit]
  simp only [List.attach_map_val]

theorem preorder_node (d : NodeData) (children : List TsNode) :
    preorder (TsNode.node d children) =
      TsNode.node d children :: (children.map (fun c => preorder c)).flatten := by
  rw [preorder]
  simp only [List.attach_map_val]

theorem visit_eq_filterMap_preorder (cfg : AnnotationConfig) (sf : SourceFile) :
    ∀ (n : Nat) (t : TsNode), sizeOf t ≤ n →
    visit cfg sf t = (preorder t).filterMap
      (fun x => if x.qualifies then processFunctionDeclaration cfg sf x.data else none) := by
  intro n
  induction n with
  | zero =>
    intro t h
    exfalso
    cases t with
    | node d children =>
      simp only [TsNode.node.sizeOf_spec] at h
      omega
  | succ n ih =>
    intro t h
    cases t with
    | node d children =>
      have hch : ∀ c ∈ children, sizeOf c ≤ n := by
        intro c hc
        have h1 := List.sizeOf_lt_of_mem hc
        simp only [TsNode.node.sizeOf_spec] at h
        omega
      rw [visit_node, preorder_node, List.filterMap_cons]
      have htail : (children.map (fun c => visit cfg sf c)).flatten =
          ((children.map (fun c => preorder c)).flatten).filterMap
            (fun x => if x.qualifies then processFunctionDeclaration cfg sf x.data else none) := by
        rw [List.filterMap_flatten, List.map_map]
        congr 1
        apply List.map_congr_left
        intro c hc
        exact ih c (hch c hc)
      cases hq : d.isFunctionDeclaration && d.name.isSome with
      | false => simp [TsNode.qualifies, TsNode.data, hq, htail]
      | true =>
        cases hp : processFunctionDeclaration cfg sf d with
        | none => simp [TsNode.qualifies, TsNode.data, hq, hp, htail]
        | some fm => simp [TsNode.qualifies, TsNode.data, hq, hp, htail]


/-! The claim theorems. -/

/-- Claim C1, counterexample: for the configuration with supported tag
`@param` and multi-line support on, the comment `"@param\n"` — a tag line
with no body followed by one empty line — yields exactly one annotation,
whose content is empty (so not every emitted annotation has non-empty
content after trimming): the emptiness guard of the source tests the
content before it is trimmed, and the appended continuation newline makes
it a truthy string. -/
theorem C1_counterexample :
    parse (AnnotationConfig.mk [str "@param"] true) (str "@param\n") =
      [AnnotationMetadata.mk (str "@param") [] true] ∧
    ¬ (∀ a ∈ parse (AnnotationConfig.mk [str "@param"] true) (str "@param\n"),
        jsTrim a.content ≠ []) := by
  decide

/-- Claim C1, amended: every annotation returned by `parse` that is not
multi-line (no continuation line was ever appended) has non-empty content
after trimming; in particular a recognized tag line with no body that is
immediately followed by another recognized tag line yields no annotation
entry.  (A multi-line annotation may trim to empty content, as the
counterexample shows.) -/
theorem C1_single_line_content_nonempty (cfg : AnnotationConfig) (comments : Str)
    (a : AnnotationMetadata) (ha : a ∈ parse cfg comments)
    (hml : a.isMultiLine = false) : jsTrim a.content ≠ [] := by
  have hinv := parseLines_trimmedInv cfg (splitLines comments)
  simp only [parse] at ha
  rcases mem_pushCurrent ha with hmem | ⟨c, hc, hct, hcc, rfl⟩
  · obtain ⟨hfix, hne⟩ := hinv.1 a hmem
    rw [hfix]
    exact hne hml
  · have hml2 : c.isMultiLine = false := by
      simpa [ finalizeAnnotation] using hml
    have hfix := hinv.2 c hc hml2
    simp only [ finalizeAnnotation]
    rw [jsTrim_idem, hfix]
    exact hcc

/-- Witness for C1: the single-line annotation parsed from `"@param x"`
has the non-empty trimmed content `"x"`. -/
theorem C1_witness : jsTrim (str "x") ≠ [] :=
  C1_single_line_content_nonempty (AnnotationConfig.mk [str "@param"] true)
    (str "@param x") (AnnotationMetadata.mk (str "@param") (str "x") false)
    (by decide) rfl

/-- Claim C2, counterexample: for the source text `"function foo() {}"`
the declaration node starts at offset 0 while its name token starts at
offset 9; the code reports location (1, 1) — the 1-based position of
`node.getStart()` — whereas the name token start is at (1, 10). -/
theorem C2_counterexample :
    processFunctionDeclaration defaultConfig
        (SourceFile.mk (str "function foo() \x7b\x7d"))
        (NodeData.mk true (some (str "foo")) 9 0 none) =
      some (FunctionMetadata.mk (str "foo") [] (Location.mk 1 1)) ∧
    nameTokenLocation (str "function foo() \x7b\x7d") 9 = Location.mk 1 10 ∧
    Location.mk 1 1 ≠ Location.mk 1 10 := by
  decide

/-- Claim C2, amended: the reported location of a named function
declaration is the 1-based line and column of the offset returned by
`node.getStart()` — the start of the declaration itself (its first
non-trivia token), not of its name token: the line is one more than the
number of line breaks before that offset and the column is one more than
the distance from the last line break before it. -/
theorem C2_location_is_node_start (cfg : AnnotationConfig) (sf : SourceFile)
    (d : NodeData) (fm : FunctionMetadata)
    (h : processFunctionDeclaration cfg sf d = some fm) :
    fm.location.line = (sf.text.take d.start).count '\n' + 1 ∧
    fm.location.column =
      ((sf.text.take d.start).reverse.takeWhile (fun c => c != '\n')).length + 1 := by
  cases hn : d.name with
  | none =>
    rw [processFunctionDeclaration, hn] at h
    simp at h
  | some nm =>
    rw [processFunctionDeclaration, hn] at h
    simp only [Option.some.injEq] at h
    subst h
    refine ⟨?_, rfl⟩
    simp only [getLineAndCharacterOfPosition, lineOf, List.count_eq_countP,
      List.countP_eq_length_filter]

/-- Witness for C2: the amended location law evaluated on the
`"function foo() {}"` node. -/
theorem C2_witness :
    (FunctionMetadata.mk (str "foo") [] (Location.mk 1 1)).location.line =
      ((str "function foo() \x7b\x7d").take 0).count '\n' + 1 ∧
    (FunctionMetadata.mk (str "foo") [] (Location.mk 1 1)).location.column =
      (((str "function foo() \x7b\x7d").take 0).reverse.takeWhile
        (fun c => c != '\n')).length + 1 :=
  C2_location_is_node_start defaultConfig
    (SourceFile.mk (str "function foo() \x7b\x7d"))
    (NodeData.mk true (some (str "foo")) 9 0 none)
    (FunctionMetadata.mk (str "foo") [] (Location.mk 1 1)) (by decide)

/-- Claim C3: `parse` is a total Lean function by construction — every
string input yields a list of annotations and there is no failure channel
in its type — and on the empty string it returns the empty sequence, for
every configuration. -/
theorem C3_parse_total_empty (cfg : AnnotationConfig) : parse cfg (str "") = [] := by
  show parse cfg [] = []
  simp only [parse]
  have hlines : parseLines cfg (splitLines []) = parseStep cfg ([], none) [] := by
    simp [parseLines, splitLines]
  rw [hlines, parseStep_cleanNil cfg ([], none) [] cleanLine_nil]
  rfl

/-- Claim C4, counterexample: with configured tags `["@param",
"@paramType"]` — the second a strict extension of the first — and the
line `"@paramType x"`, both tags are prefixes of the line but the parser
matches `"@param"`, the earlier, shorter one: the longest-match rule of
the claim does not hold. -/
theorem C4_counterexample :
    findAnnotationType (AnnotationConfig.mk [str "@param", str "@paramType"] true)
        (str "@paramType x") = some (str "@param") ∧
    str "@paramType" ∈ (AnnotationConfig.mk [str "@param", str "@paramType"]
        true).supportedAnnotations ∧
    (str "@paramType").isPrefixOf (str "@paramType x") = true ∧
    (str "@param").length < (str "@paramType").length := by
  decide

/-- Claim C4, amended: the tag matched for a line is the first tag, in the
order of the configured set, that is a prefix of the line — every tag
listed before it fails the prefix test (length plays no role). -/
theorem C4_first_match_wins (cfg : AnnotationConfig) (line t : Str)
    (h : findAnnotationType cfg line = some t) :
    ∃ pre post, cfg.supportedAnnotations = pre ++ t :: post ∧
      t.isPrefixOf line = true ∧ ∀ u ∈ pre, u.isPrefixOf line = false := by
  unfold findAnnotationType at h
  obtain ⟨hp, as, bs, hsplit, hpre⟩ := List.find?_eq_some.mp h
  refine ⟨as, bs, hsplit, by simpa using hp, ?_⟩
  intro u hu
  simpa using hpre u hu

/-- Witness for C4: the first-match law evaluated on the overlapping-tag
configuration of the counterexample. -/
theorem C4_witness :
    ∃ pre post,
      (AnnotationConfig.mk [str "@param", str "@paramType"]
        true).supportedAnnotations = pre ++ (str "@param") :: post ∧
      (str "@param").isPrefixOf (str "@paramType x") = true ∧
      ∀ u ∈ pre, u.isPrefixOf (str "@paramType x") = false :=
  C4_first_match_wins (AnnotationConfig.mk [str "@param", str "@paramType"] true)
    (str "@paramType x") (str "@param") (by decide)

/-- Claim C5: the doc comment `"/** @param name desc\n@returns result */"`
under configuration `{["@param", "@returns"], multi-line on}` parses to
exactly the two annotations `(@param, "name desc")` then
`(@returns, "result")`, neither multi-line. -/
theorem C5_scenario :
    parse (AnnotationConfig.mk [str "@param", str "@returns"] true)
        (str "/** @param name desc\n@returns result */") =
      [AnnotationMetadata.mk (str "@param") (str "name desc") false,
       AnnotationMetadata.mk (str "@returns") (str "result") false] := by
  decide

/-- Claim C6: the comment `"@description\nline1\nline2"` with
`@description` among the supported tags and multi-line continuation on
parses to a single annotation with tag `@description`, content holding
`line1` then a line break then `line2`, and the multi-line flag set. -/
theorem C6_continuation :
    parse (AnnotationConfig.mk
        [str "@param", str "@returns", str "@throws", str "@description"] true)
        (str "@description\nline1\nline2") =
      [AnnotationMetadata.mk (str "@description")
        (str "line1" ++ '\n' :: str "line2") true] := by
  decide

/-- Claim C7: the extracted metadata lists the qualifying (named function
declaration) nodes in document order — the output of the traversal equals
the depth-first preorder listing of the tree, filtered to the qualifying
nodes and mapped through the per-declaration processing. -/
theorem C7_document_order (cfg : AnnotationConfig) (sf : SourceFile) (t : TsNode) :
    extractFunctions cfg sf t = (preorder t).filterMap
      (fun x => if x.qualifies then processFunctionDeclaration cfg sf x.data else none) :=
  visit_eq_filterMap_preorder cfg sf (sizeOf t) t (Nat.le_refl _)

/-- Claim C8: a named function declaration whose leading-trivia comment
query comes back empty still appears in the output, with an empty
annotation list. -/
theorem C8_undocumented_function (cfg : AnnotationConfig) (sf : SourceFile)
    (d : NodeData) (children : List TsNode) (nm : Str)
    (hfn : d.isFunctionDeclaration = true) (hname : d.name = some nm)
    (hcm : d.leadingCommentRanges = none) :
    ∃ fm, fm ∈ extractFunctions cfg sf (TsNode.node d children) ∧
      fm.name = nm ∧ fm.annotations = [] := by
  have hproc : processFunctionDeclaration cfg sf d =
      some (FunctionMetadata.mk nm []
        (Location.mk (lineOf sf.text d.start + 1) (characterOf sf.text d.start + 1))) := by
    unfold processFunctionDeclaration
    rw [hname]
    simp [hcm, getLeadingComments, parseAnnotations, getLineAndCharacterOfPosition]
  refine ⟨FunctionMetadata.mk nm []
      (Location.mk (lineOf sf.text d.start + 1) (characterOf sf.text d.start + 1)),
    ?_, rfl, rfl⟩
  unfold extractFunctions
  rw [visit_node]
  simp only [hfn, hname, Option.isSome_some, Bool.and_self, if_true, ite_true, hproc]
  exact List.mem_append_left _ (by simp)

/-- Witness for C8: a concrete undocumented declaration node appears in
the output with no annotations. -/
theorem C8_witness :
    ∃ fm, fm ∈ extractFunctions defaultConfig (SourceFile.mk (str "function g()"))
        (TsNode.node (NodeData.mk true (some (str "g")) 9 0 none) []) ∧
      fm.name = str "g" ∧ fm.annotations = [] :=
  C8_undocumented_function defaultConfig (SourceFile.mk (str "function g()"))
    (NodeData.mk true (some (str "g")) 9 0 none) [] (str "g") rfl rfl rfl

/-- Claim C9: with multi-line support disabled, every emitted annotation
has the multi-line flag off and its content is exactly the trimmed
remainder of its tag line — some input line whose cleaned form matches the
annotation's tag — after that tag; non-tag lines never change an open
annotation's content. -/
theorem C9_no_continuation (cfg : AnnotationConfig) (comments : Str)
    (hml : cfg.multiLineSupport = false) (a : AnnotationMetadata)
    (ha : a ∈ parse cfg comments) :
    a.isMultiLine = false ∧ ∃ l ∈ splitLines comments,
      findAnnotationType cfg (cleanLine l) = some a.type ∧
      a.content = jsTrim ((cleanLine l).drop a.type.length) := by
  have hinv := parseLines_tagSourced cfg hml (splitLines comments) (splitLines comments)
    (fun l hl => hl)
  simp only [parse] at ha
  rcases mem_pushCurrent ha with hmem | ⟨c, hc, hct, hcc, rfl⟩
  · exact hinv.1 a hmem
  · exact finalizeAnnotation_tagSourced (hinv.2 c hc)

/-- Witness for C9: with continuation off, `"@param x\ny"` yields the
single-line annotation `(@param, "x")`, whose content is the trimmed
remainder of its tag line. -/
theorem C9_witness :
    (AnnotationMetadata.mk (str "@param") (str "x") false).isMultiLine = false ∧
    ∃ l ∈ splitLines (str "@param x\ny"),
      findAnnotationType (AnnotationConfig.mk [str "@param"] false) (cleanLine l) =
        some (AnnotationMetadata.mk (str "@param") (str "x") false).type ∧
      (AnnotationMetadata.mk (str "@param") (str "x") false).content =
        jsTrim ((cleanLine l).drop
          (AnnotationMetadata.mk (str "@param") (str "x") false).type.length) :=
  C9_no_continuation (AnnotationConfig.mk [str "@param"] false) (str "@param x\ny") rfl
    (AnnotationMetadata.mk (str "@param") (str "x") false) (by decide)

/-- Claim C10: with multi-line continuation enabled, a final physical line
made of whitespace followed by the block-comment closer cleans to the
empty string and is appended as a continuation line, so the annotation
open at that point is emitted with the multi-line flag set — even though
no textual continuation line follows its tag line. -/
theorem C10_closing_line_marks_multiline (cfg : AnnotationConfig) (s ws : Str)
    (anns : List AnnotationMetadata) (c : AnnotationMetadata)
    (hml : cfg.multiLineSupport = true)
    (hws : ∀ ch ∈ ws, ch = ' ' ∨ ch = '\t')
    (hstate : parseLines cfg (splitLines s) = (anns, some c))
    (htype : c.type ≠ []) :
    cleanLine (ws ++ ['*', '/']) = [] ∧
    parse cfg (s ++ '\n' :: (ws ++ ['*', '/'])) =
      anns ++ [AnnotationMetadata.mk c.type (jsTrim c.content) true] := by
  have hwsJs : ∀ ch ∈ ws, isJsWs ch = true := by
    intro ch hch
    rcases hws ch hch with h | h <;> simp [isJsWs, h]
  have hclean : cleanLine (ws ++ ['*', '/']) = [] := by
    unfold cleanLine jsTrim
    have h1 : trimEnd (ws ++ ['*', '/']) = ws ++ ['*', '/'] := by
      have h0 := trimEnd_concat_nonws '/' (by decide) (ws ++ ['*'])
      simpa using h0
    rw [h1]
    have h2 : trimStart (ws ++ ['*', '/']) = ['*', '/'] := by
      unfold trimStart
      rw [List.dropWhile_append_of_pos hwsJs]
      decide
    rw [h2]
    decide
  refine ⟨hclean, ?_⟩
  have hnonl : '\n' ∉ ws ++ ['*', '/'] := by
    intro hmem
    rcases List.mem_append.mp hmem with h | h
    · rcases hws _ h with h2 | h2 <;> simp at h2
    · simp at h
  simp only [parse]
  rw [splitLines_snoc (ws ++ ['*', '/']) hnonl s]
  unfold parseLines
  rw [List.foldl_append]
  have hfold : (splitLines s).foldl (parseStep cfg) ([], none) = (anns, some c) := hstate
  rw [hfold]
  simp only [List.foldl_cons, List.foldl_nil]
  rw [parseStep_cleanNil cfg (anns, some c) _ hclean]
  unfold contStep
  simp only [hml, if_true, ite_true]
  rw [@pushCurrent_of_ok anns
    (AnnotationMetadata.mk c.type (c.content ++ ['\n']) true) htype (by simp)]
  simp only [ finalizeAnnotation]
  rw [jsTrim_concat_ws '\n' (by decide) c.content]

/-- Witness for C10: parsing `"/** @param x"` leaves `(@param, "x")` open;
appending the closer line `" */"` emits it with the multi-line flag. -/
theorem C10_witness :
    cleanLine ([' '] ++ ['*', '/']) = [] ∧
    parse (AnnotationConfig.mk [str "@param"] true)
        (str "/** @param x" ++ '\n' :: ([' '] ++ ['*', '/'])) =
      [] ++ [AnnotationMetadata.mk (str "@param") (jsTrim (str "x")) true] :=
  C10_closing_line_marks_multiline (AnnotationConfig.mk [str "@param"] true)
    (str "/** @param x") [' '] [] (AnnotationMetadata.mk (str "@param") (str "x") false)
    rfl (by decide) (by decide) (by decide)

end Extractor
